import Mathlib

/-!
Verification of the xlr8 query partition planner.

The planner consists of four components: the operator classifier
(src/xlr8/analysis/inspector.py), the chunkability validator, the bracket
builder (src/xlr8/analysis/brackets.py) and the time-range chunker
(src/xlr8/analysis/chunker.py).  The operator classification sets are
present verbatim in the repository and are embedded from it.  The bodies of
the validator, builder and chunker functions are not present in the
repository (only their docstrings, exports and test documentation are), so
those functions are modelled from the specification, as marked on each
definition.

Modelling conventions: BSON documents are modelled with scalar field values
(integers, strings, booleans); timestamps are integers (epoch seconds);
pattern matching for the regex operator is modelled as prefix matching.
None of the claims proved below depend on the semantics of the operators
affected by these simplifications, because such operators are classified as
overlap prone and force single-bracket mode before their semantics is
consulted.
-/

namespace XLR8

/-- A scalar BSON-like value stored in a document or used in a filter. -/
inductive Value where
  | vint : Int → Value
  | vstr : String → Value
  | vbool : Bool → Value
deriving DecidableEq, Repr

/-- The operand of a field-operator condition: a single value or a list of
values (as used by the set-membership operators). -/
inductive Operand where
  | oval : Value → Operand
  | olist : List Value → Operand
deriving DecidableEq, Repr

/-- A filter expression: a recursive tree of field-operator clauses,
logical combinators and single-clause negations, following the data model
of the spec (section 3).  A dict query {f1: c1, f2: c2} is the conjunction
qand of its clauses; the direct equality form {f: v} is encoded as the leaf
with operator symbol for equality. -/
inductive Query where
  | leaf (field op : String) (arg : Operand)
  | qnot (field op : String) (arg : Operand)
  | qand (qs : List Query)
  | qor (qs : List Query)
  | qnor (qs : List Query)

/-- A time range (lo, hi, is_full): inclusive lower bound, exclusive upper
bound (absent when unresolved), and a flag recording whether both bounds
were explicitly supplied. -/
structure TimeRange where
  lo : Int
  hi : Option Int
  full : Bool
deriving DecidableEq, Repr

-- =========================================================================
-- Operator classification sets, embedded from src/xlr8/analysis/inspector.py
-- (lines 157-312) and src/xlr8/analysis/brackets.py (lines 95-113).
-- =========================================================================

/-- ALWAYS_ALLOWED from src/xlr8/analysis/inspector.py lines 157-219. -/
def ALWAYS_ALLOWED : List String :=
  ["$eq", "$ne", "$gt", "$gte", "$lt", "$lte", "$in", "$nin",
   "$exists", "$type",
   "$all", "$elemMatch", "$size",
   "$bitsAllClear", "$bitsAllSet", "$bitsAnyClear", "$bitsAnySet",
   "$regex", "$options", "$mod", "$jsonSchema", "$comment",
   "$and"]

/-- CONDITIONAL from src/xlr8/analysis/inspector.py lines 221-260. -/
def CONDITIONAL : List String := ["$or", "$nor", "$not"]

/-- NEVER_ALLOWED from src/xlr8/analysis/inspector.py lines 262-312. -/
def NEVER_ALLOWED : List String :=
  ["$expr", "$where",
   "$text",
   "$search", "$vectorSearch",
   "$near", "$nearSphere", "$geoWithin", "$geoIntersects", "$geometry",
   "$box", "$polygon", "$center", "$centerSphere", "$maxDistance",
   "$minDistance", "$uniqueDocs"]

/-- NEGATION_OPERATORS from src/xlr8/analysis/brackets.py line 96. -/
def NEGATION_OPERATORS : List String := ["$nin", "$ne", "$not", "$nor"]

/-- OVERLAP_PRONE_OPERATORS from src/xlr8/analysis/brackets.py
lines 100-113. -/
def OVERLAP_PRONE_OPERATORS : List String :=
  ["$all", "$elemMatch", "$regex", "$mod",
   "$gt", "$gte", "$lt", "$lte",
   "$bitsAllSet", "$bitsAnySet", "$bitsAllClear", "$bitsAnyClear"]

/-- The safety tier of an operator (spec section 3, Operator Tier). -/
inductive Tier where
  | alwaysAllowed
  | conditionallyAllowed
  | neverAllowed
deriving DecidableEq, Repr

/-- The operator classifier: a pure lookup from operator symbol to tier
(spec section 4.1); none for symbols outside the known vocabulary. -/
def classifyOp (op : String) : Option Tier :=
  if op ∈ ALWAYS_ALLOWED then some Tier.alwaysAllowed
  else if op ∈ CONDITIONAL then some Tier.conditionallyAllowed
  else if op ∈ NEVER_ALLOWED then some Tier.neverAllowed
  else none

-- =========================================================================
-- Tree traversals
-- =========================================================================

mutual
/-- All operator symbols occurring anywhere in an expression tree,
including the symbols of the combinators themselves. -/
def qops : Query → List String
  | .leaf _ op _ => [op]
  | .qnot _ op _ => ["$not", op]
  | .qand qs => "$and" :: qopsL qs
  | .qor qs => "$or" :: qopsL qs
  | .qnor qs => "$nor" :: qopsL qs

def qopsL : List Query → List String
  | [] => []
  | q :: qs => qops q ++ qopsL qs
end

mutual
/-- Nesting depth of disjunctions in an expression tree. -/
def orDepth : Query → Nat
  | .leaf _ _ _ => 0
  | .qnot _ _ _ => 0
  | .qand qs => orDepthL qs
  | .qnor qs => orDepthL qs
  | .qor qs => 1 + orDepthL qs

def orDepthL : List Query → Nat
  | [] => 0
  | q :: qs => max (orDepth q) (orDepthL qs)
end

/-- First never-allowed operator found in the tree, if any. -/
def hasForbiddenOp (q : Query) : Option String :=
  (qops q).find? (fun op => decide (op ∈ NEVER_ALLOWED))

-- =========================================================================
-- Time-range chunker
-- =========================================================================

/-- Seconds in one calendar day. -/
def secondsPerDay : Int := 86400

/-- Emit chunks of length step from cur (exclusive upper bound hi); the
final chunk is truncated at hi. -/
def chunkAux (hi step : Int) : Int → List (Int × Int)
  | cur =>
    if _h : 0 < step ∧ cur + step < hi then
      (cur, cur + step) :: chunkAux hi step (cur + step)
    else
      [(cur, hi)]
termination_by cur => (hi - cur).toNat
decreasing_by omega

/-- Modelled from the spec: the body of chunk_time_range is missing from
src/xlr8/analysis/chunker.py (the file holds only its docstring), so the
algorithm of spec section 4.4 and that docstring is modelled here.  The
first boundary after lo is the next instant that is a whole multiple of
chunk_days after the start of the calendar day of lo; later boundaries
advance by exactly chunk_days; the final chunk is truncated at hi.  An
unresolved hi, or lo equal to (or past) hi, yields zero chunks. -/
def chunk_time_range (tr : TimeRange) (chunk_days : Nat) : List (Int × Int) :=
  match tr.hi with
  | none => []
  | some hi =>
    if _hle : hi ≤ tr.lo then []
    else if _hcd : chunk_days = 0 then []
    else
      let step : Int := secondsPerDay * chunk_days
      let dayStart : Int := tr.lo - tr.lo % secondsPerDay
      let first : Int := dayStart + step
      if _hfst : hi ≤ first then [(tr.lo, hi)]
      else (tr.lo, first) :: chunkAux hi step first

/-- A list of intervals that starts at lo, ends at hi, is contiguous, and
has every interval nonempty. -/
inductive ChainFrom : Int → Int → List (Int × Int) → Prop
  | single : ∀ lo hi : Int, lo < hi → ChainFrom lo hi [(lo, hi)]
  | cons : ∀ (lo mid hi : Int) ps, lo < mid → ChainFrom mid hi ps →
      ChainFrom lo hi ((lo, mid) :: ps)

-- =========================================================================
-- Chunkability validator
-- =========================================================================

mutual
/-- Whether any clause in the tree names the given field. -/
def mentionsField (tf : String) : Query → Bool
  | .leaf f _ _ => decide (f = tf)
  | .qnot f _ _ => decide (f = tf)
  | .qand qs => mentionsFieldL tf qs
  | .qor qs => mentionsFieldL tf qs
  | .qnor qs => mentionsFieldL tf qs

def mentionsFieldL (tf : String) : List Query → Bool
  | [] => false
  | q :: qs => mentionsField tf q || mentionsFieldL tf qs
end

mutual
/-- Whether a negation is applied to the time field anywhere in the tree: a
not-equal or not-in condition on the time field, a single-clause negation
of a condition on the time field, or a negated list that references the
time field. -/
def timeFieldNegated (tf : String) : Query → Bool
  | .leaf f op _ => decide (f = tf) && (decide (op = "$ne") || decide (op = "$nin"))
  | .qnot f _ _ => decide (f = tf)
  | .qand qs => timeFieldNegatedL tf qs
  | .qor qs => timeFieldNegatedL tf qs
  | .qnor qs => mentionsFieldL tf qs || timeFieldNegatedL tf qs

def timeFieldNegatedL (tf : String) : List Query → Bool
  | [] => false
  | q :: qs => timeFieldNegated tf q || timeFieldNegatedL tf qs
end

mutual
/-- Comparison constraints on the time field, collected by recursively
walking conjuncts (and the contents of negated lists, which can hold no
time-field condition in an expression that passed the negation check);
branches of a disjunction are not conjuncts and are skipped. -/
def timeConds (tf : String) : Query → List (String × Int)
  | .leaf f op (.oval (.vint v)) =>
    if f = tf ∧ (op = "$gte" ∨ op = "$gt" ∨ op = "$lt" ∨ op = "$lte")
    then [(op, v)] else []
  | .leaf _ _ _ => []
  | .qnot _ _ _ => []
  | .qand qs => timeCondsL tf qs
  | .qnor qs => timeCondsL tf qs
  | .qor _ => []

def timeCondsL (tf : String) : List Query → List (String × Int)
  | [] => []
  | q :: qs => timeConds tf q ++ timeCondsL tf qs
end

/-- Combine a lower-bound constraint with the tightest one seen so far. -/
def tightenLo (acc : Option Int) (v : Int) : Option Int :=
  match acc with
  | none => some v
  | some a => some (max a v)

/-- Combine an upper-bound constraint with the tightest one seen so far. -/
def tightenHi (acc : Option Int) (v : Int) : Option Int :=
  match acc with
  | none => some v
  | some a => some (min a v)

/-- Intersect a list of comparison constraints on the time field into the
tightest inclusive lower bound and exclusive upper bound. -/
def resolveBounds (l : List (String × Int)) : Option Int × Option Int :=
  l.foldl
    (fun acc c =>
      if c.1 = "$gte" then (tightenLo acc.1 c.2, acc.2)
      else if c.1 = "$gt" then (tightenLo acc.1 (c.2 + 1), acc.2)
      else if c.1 = "$lt" then (acc.1, tightenHi acc.2 c.2)
      else if c.1 = "$lte" then (acc.1, tightenHi acc.2 (c.2 + 1))
      else acc)
    (none, none)

/-- Outcome of the validator: a chunkability verdict, a reason string
populated only on rejection, and the resolved time bound. -/
structure ValidationResult where
  ok : Bool
  reason : String
  bound : TimeRange
deriving DecidableEq, Repr

/-- Modelled from the spec: the body of validate_query_for_chunking is
missing from src/xlr8/analysis/inspector.py (the file holds only its
docstring and the operator sets), so the ordered pipeline of spec section
4.2 is modelled here: (1) scan for a never-allowed operator, (2) reject
nested disjunctions, (3) reject negation applied to the time field, (4)
resolve the time bounds by intersection, rejecting when no upper bound
remains or the lower bound exceeds the upper bound.  The first failing
check determines the rejection reason, drawn from the fixed taxonomy of
spec section 7. -/
def validate_query_for_chunking (q : Query) (tf : String) : ValidationResult :=
  match hasForbiddenOp q with
  | some op => ⟨false, "forbidden-operator: " ++ op, ⟨0, none, false⟩⟩
  | none =>
    if orDepth q > 1 then ⟨false, "nested-or-depth>1", ⟨0, none, false⟩⟩
    else if timeFieldNegated tf q then ⟨false, "time-field-negated", ⟨0, none, false⟩⟩
    else
      match resolveBounds (timeConds tf q) with
      | (lo?, some hi) =>
        if lo?.getD 0 > hi then ⟨false, "no-time-bound", ⟨0, none, false⟩⟩
        else ⟨true, "", ⟨lo?.getD 0, some hi, lo?.isSome⟩⟩
      | (_, none) => ⟨false, "no-time-bound", ⟨0, none, false⟩⟩

/-- Modelled from the spec: tuple-shaped wrapper of the validator, as
described by the API usage docstring of src/xlr8/analysis/inspector.py. -/
def is_chunkable_query (q : Query) (tf : String) : Bool × String × TimeRange :=
  ((validate_query_for_chunking q tf).ok,
   (validate_query_for_chunking q tf).reason,
   (validate_query_for_chunking q tf).bound)

-- =========================================================================
-- Document-matching semantics of filters
-- =========================================================================

/-- A document: a partial assignment of scalar values to field names. -/
def Doc : Type := String → Option Value

/-- Strict order on scalar values; values of different types are
incomparable. -/
def valueLt : Value → Value → Bool
  | .vint a, .vint b => decide (a < b)
  | .vstr a, .vstr b => decide (a < b)
  | _, _ => false

/-- Name of the BSON-like type of a scalar value. -/
def typeName : Value → String
  | .vint _ => "int"
  | .vstr _ => "string"
  | .vbool _ => "bool"

/-- Whether one bit-position argument is set in an integer value. -/
def bitAt (x : Int) (w : Value) : Bool :=
  match w with
  | .vint k => x.toNat.testBit k.toNat
  | _ => false

/-- Whether a field condition holds of the (possibly absent) value the
document assigns to the field. -/
def matchesCond (v? : Option Value) (op : String) (arg : Operand) : Bool :=
  if op = "$eq" then (match arg with | .oval w => decide (v? = some w) | _ => false)
  else if op = "$ne" then (match arg with | .oval w => !decide (v? = some w) | _ => false)
  else if op = "$gt" then
    (match arg, v? with | .oval w, some v => valueLt w v | _, _ => false)
  else if op = "$gte" then
    (match arg, v? with | .oval w, some v => valueLt w v || decide (v = w) | _, _ => false)
  else if op = "$lt" then
    (match arg, v? with | .oval w, some v => valueLt v w | _, _ => false)
  else if op = "$lte" then
    (match arg, v? with | .oval w, some v => valueLt v w || decide (v = w) | _, _ => false)
  else if op = "$in" then
    (match arg, v? with | .olist ws, some v => decide (v ∈ ws) | _, _ => false)
  else if op = "$nin" then
    (match arg, v? with
     | .olist ws, some v => !decide (v ∈ ws)
     | .olist _, none => true
     | _, _ => false)
  else if op = "$exists" then
    (match arg with | .oval (.vbool b) => v?.isSome == b | _ => false)
  else if op = "$type" then
    (match arg, v? with | .oval (.vstr t), some v => decide (typeName v = t) | _, _ => false)
  else if op = "$all" then
    (match arg, v? with | .olist ws, some v => ws.all (fun w => decide (w = v)) | _, _ => false)
  else if op = "$size" then false
  else if op = "$elemMatch" then (match arg with | .oval w => decide (v? = some w) | _ => false)
  else if op = "$mod" then
    (match arg, v? with
     | .olist [.vint m, .vint r], some (.vint x) => decide (m ≠ 0 ∧ x % m = r)
     | _, _ => false)
  else if op = "$regex" then
    (match arg, v? with | .oval (.vstr p), some (.vstr s) => p.isPrefixOf s | _, _ => false)
  else if op = "$options" then true
  else if op = "$comment" then true
  else if op = "$jsonSchema" then true
  else if op = "$bitsAllSet" then
    (match arg, v? with | .olist ws, some (.vint x) => ws.all (bitAt x) | _, _ => false)
  else if op = "$bitsAnySet" then
    (match arg, v? with | .olist ws, some (.vint x) => ws.any (bitAt x) | _, _ => false)
  else if op = "$bitsAllClear" then
    (match arg, v? with | .olist ws, some (.vint x) => ws.all (fun w => !bitAt x w) | _, _ => false)
  else if op = "$bitsAnyClear" then
    (match arg, v? with | .olist ws, some (.vint x) => ws.any (fun w => !bitAt x w) | _, _ => false)
  else false

mutual
/-- Whether a document satisfies a filter expression. -/
def matchesQ (doc : Doc) : Query → Bool
  | .leaf f op a => matchesCond (doc f) op a
  | .qnot f op a => !matchesCond (doc f) op a
  | .qand qs => matchesL doc qs
  | .qor qs => matchesAnyL doc qs
  | .qnor qs => !matchesAnyL doc qs

def matchesL (doc : Doc) : List Query → Bool
  | [] => true
  | q :: qs => matchesQ doc q && matchesL doc qs

def matchesAnyL (doc : Doc) : List Query → Bool
  | [] => false
  | q :: qs => matchesQ doc q || matchesAnyL doc qs
end

-- =========================================================================
-- Bracket builder
-- =========================================================================

/-- A bracket: a conjunctive static filter plus the time range it owns. -/
structure Bracket where
  filter : Query
  tr : TimeRange

/-- The decision mode of the bracket builder. -/
inductive Mode where
  | parallel
  | single
  | reject
deriving DecidableEq, Repr

/-- Result of the bracket builder: the mode, a reason string, and the
emitted brackets. -/
structure BuildResult where
  mode : Mode
  reason : String
  brackets : List Bracket

/-- A flattened field condition: field name, operator symbol, operand. -/
abbrev Cond : Type := String × String × Operand

/-- A branch in flattened form paired with its resolved time range. -/
abbrev BPair : Type := List Cond × TimeRange

/-- The conjuncts at the top level of an expression. -/
def topConjuncts : Query → List Query
  | .qand qs => qs
  | q => [q]

/-- Remove the first top-level disjunction from a conjunct list, returning
the remaining conjuncts and the branches of that disjunction. -/
def extractFirstOr : List Query → List Query × Option (List Query)
  | [] => ([], none)
  | .qor qs :: rest => (rest, some qs)
  | c :: rest =>
    let p := extractFirstOr rest
    (c :: p.1, p.2)

/-- Modelled from the spec: split_global_and is exported by
src/xlr8/analysis/__init__.py but its body is missing from the repository;
spec section 4.3 step 1 describes it as partitioning the expression into
the conjuncts shared by every branch and the branches of the single
top-level disjunction (an empty list if there is none). -/
def split_global_and (q : Query) : List Query × List Query :=
  let p := extractFirstOr (topConjuncts q)
  (p.1, p.2.getD [])

/-- Remove the conditions on the time field from a conjunct list (a static
filter holds only the non-time conditions); disjunctions and negated lists
are kept whole. -/
def stripTime (tf : String) : List Query → List Query
  | [] => []
  | .leaf f op a :: rest =>
    if f = tf then stripTime tf rest else .leaf f op a :: stripTime tf rest
  | .qnot f op a :: rest =>
    if f = tf then stripTime tf rest else .qnot f op a :: stripTime tf rest
  | .qand qs :: rest => .qand (stripTime tf qs) :: stripTime tf rest
  | q :: rest => q :: stripTime tf rest

mutual
/-- The flattened field conditions of a branch (leaves, descending into
nested conjunctions).  Combinators cannot occur in a branch when this is
reached: nested disjunctions were rejected by the depth check and negations
forced single-bracket mode. -/
def flatConds : Query → List Cond
  | .leaf f op a => [(f, op, a)]
  | .qnot f _ a => [(f, "$not", a)]
  | .qand qs => flatCondsL qs
  | .qor _ => []
  | .qnor _ => []

def flatCondsL : List Query → List Cond
  | [] => []
  | q :: qs => flatConds q ++ flatCondsL qs
end

/-- The non-time flattened conditions of a branch. -/
def branchConds (tf : String) (b : Query) : List Cond :=
  (flatConds b).filter (fun c => decide (¬ c.1 = tf))

/-- The time range of one branch: the validated bound tightened by the
comparison constraints the branch itself places on the time field. -/
def branchRange (tf : String) (tb : TimeRange) (b : Query) : TimeRange :=
  let bounds := resolveBounds (timeConds tf b)
  { lo := match bounds.1 with
          | none => tb.lo
          | some l => max tb.lo l
  , hi := match tb.hi, bounds.2 with
          | none, none => none
          | some h, none => some h
          | none, some h => some h
          | some h1, some h2 => some (min h1 h2)
  , full := tb.full }

/-- Each branch with its non-time conditions and resolved time range. -/
def branchPairs (tf : String) (tb : TimeRange) (orl : List Query) : List BPair :=
  orl.map (fun b => (branchConds tf b, branchRange tf tb b))

/-- Whether a branch contains a negation operator. -/
def hasNegationOp (b : Query) : Bool :=
  (qops b).any (fun op => decide (op ∈ NEGATION_OPERATORS))

/-- Whether all elements of a list are equal. -/
def allEqB {α : Type} [DecidableEq α] : List α → Bool
  | [] => true
  | x :: xs => xs.all (fun y => decide (y = x))

/-- Whether two field-name lists name the same set of fields. -/
def setEqB (a b : List String) : Bool :=
  a.all (fun s => decide (s ∈ b)) && b.all (fun s => decide (s ∈ a))

/-- Whether all branches share the identical set of field names. -/
def fieldSetsEq (bcs : List (List Cond)) : Bool :=
  match bcs with
  | [] => true
  | x :: xs => xs.all (fun y => setEqB (x.map (fun c => c.1)) (y.map (fun c => c.1)))

/-- Every field named by some branch. -/
def allBranchFields (bcs : List (List Cond)) : List String :=
  (bcs.foldr (fun cs acc => cs.map (fun c => c.1) ++ acc) []).dedup

/-- The differentiating fields: those on which the branches do not all
carry identical conditions. -/
def diffFields (bcs : List (List Cond)) : List String :=
  (allBranchFields bcs).filter
    (fun f => !(allEqB (bcs.map (fun cs => cs.filter (fun c => decide (c.1 = f))))))

/-- Whether some branch uses an overlap-prone operator on a field that
differs between branches. -/
def overlapProneHit (bcs : List (List Cond)) : Bool :=
  bcs.any (fun cs => cs.any
    (fun c => decide (c.2.1 ∈ OVERLAP_PRONE_OPERATORS) && decide (c.1 ∈ diffFields bcs)))

/-- The single condition a branch carries on the differentiating field, if
it carries exactly one. -/
def dCond (d : String) (cs : List Cond) : Option Cond :=
  match cs.filter (fun c => decide (c.1 = d)) with
  | [c] => some c
  | _ => none

/-- The value set of an equality or set-membership condition. -/
def condSet : Cond → Option (List Value)
  | (_, op, .oval v) => if op = "$eq" then some [v] else none
  | (_, op, .olist vs) => if op = "$in" then some vs else none

/-- Whether a branch differs from the others only through an equality or
set-membership value set on the differentiating field. -/
def dOk (d : String) (cs : List Cond) : Bool :=
  ((dCond d cs).bind condSet).isSome

/-- The value set a branch carries on the differentiating field. -/
def dSet (d : String) (cs : List Cond) : List Value :=
  ((dCond d cs).bind condSet).getD []

/-- Whether the condition on the differentiating field is a resolvable
set-membership condition. -/
def dIsIn (d : String) (cs : List Cond) : Bool :=
  match dCond d cs with
  | some (_, "$in", .olist _) => true
  | _ => false

/-- Replace the value set on the differentiating field. -/
def replaceD (d : String) (s : List Value) (cs : List Cond) : List Cond :=
  cs.map (fun c => if c.1 = d then (d, "$in", Operand.olist s) else c)

/-- Whether the per-branch value sets are pairwise disjoint. -/
def pwDisjB : List (List Value) → Bool
  | [] => true
  | s :: rest => rest.all (fun t => s.all (fun v => decide (v ∉ t))) && pwDisjB rest

/-- The value-set subtraction transform: process branches in declared
order, removing from each branch every value already claimed by an earlier
branch, so that earlier branches keep contested values. -/
def transformPairs (d : String) (claimed : List Value) : List BPair → List BPair
  | [] => []
  | p :: rest =>
    let s := (dSet d p.1).filter (fun v => decide (v ∉ claimed))
    (replaceD d s p.1, p.2) :: transformPairs d (claimed ++ dSet d p.1) rest

/-- Whether two time ranges overlap or are contiguous. -/
def rangesTouch (r1 r2 : TimeRange) : Bool :=
  (match r1.hi with | none => true | some h => decide (r2.lo ≤ h)) &&
  (match r2.hi with | none => true | some h => decide (r1.lo ≤ h))

/-- The union of two overlapping or contiguous time ranges. -/
def unionRange (r1 r2 : TimeRange) : TimeRange :=
  { lo := min r1.lo r2.lo
  , hi := match r1.hi, r2.hi with
          | some a, some b => some (max a b)
          | _, _ => none
  , full := r1.full && r2.full }

/-- Merge one branch into an accumulator: a branch whose conditions are
byte-identical to an already-kept branch and whose time range touches it is
absorbed by widening that time range; otherwise it is kept at the end. -/
def insertMergeP (p : BPair) : List BPair → List BPair
  | [] => [p]
  | q :: qs =>
    if q.1 = p.1 ∧ rangesTouch q.2 p.2 = true
    then (q.1, unionRange q.2 p.2) :: qs
    else q :: insertMergeP p qs

/-- The merge optimization of spec section 4.3 step 4: branches resolving
to byte-identical static filters with contiguous or overlapping time
ranges are merged into one bracket whose time range is the union. -/
def mergePairs (ps : List BPair) : List BPair :=
  ps.foldl (fun acc p => insertMergeP p acc) []

/-- Rebuild a filter clause from a flattened condition. -/
def toClause (c : Cond) : Query := Query.leaf c.1 c.2.1 c.2.2

/-- Build the bracket of one branch: the shared non-time conjuncts plus
the branch conditions, with the branch time range. -/
def mkB (gaS : List Query) (p : BPair) : Bracket :=
  ⟨Query.qand (gaS ++ p.1.map toClause), p.2⟩

/-- The single bracket emitted in single-bracket mode: the original
disjunction, unsplit, combined with the shared conjuncts. -/
def singleBracket (tf : String) (tb : TimeRange) (ga orl : List Query) : List Bracket :=
  [⟨Query.qand (stripTime tf ga ++ [Query.qor orl]), tb⟩]

/-- The overlap analysis of spec section 4.3 step 3, run on a non-empty
branch list: negation operators, overlap-prone operators on differing
fields and differing field sets force single mode; otherwise branches
differing in a value set on exactly one field are emitted in parallel,
with the value-set subtraction transform applied when the sets overlap but
the time ranges are identical and the sets are resolvable set-membership
sets; any other shape forces single mode. -/
def buildOverlapAnalysis (tf : String) (tb : TimeRange) (ga orl : List Query) : BuildResult :=
  if orl.any hasNegationOp then
    ⟨Mode.single, "negation-operator-in-or-branch", singleBracket tf tb ga orl⟩
  else if overlapProneHit ((branchPairs tf tb orl).map Prod.fst) then
    ⟨Mode.single, "overlap-prone-operator-on-differing-field", singleBracket tf tb ga orl⟩
  else if !(fieldSetsEq ((branchPairs tf tb orl).map Prod.fst)) then
    ⟨Mode.single, "differing-branch-field-sets", singleBracket tf tb ga orl⟩
  else
    match diffFields ((branchPairs tf tb orl).map Prod.fst) with
    | [d] =>
      if ((branchPairs tf tb orl).map Prod.fst).all (fun cs => dOk d cs) then
        if pwDisjB (((branchPairs tf tb orl).map Prod.fst).map (dSet d)) then
          ⟨Mode.parallel, "", (mergePairs (branchPairs tf tb orl)).map (mkB (stripTime tf ga))⟩
        else if allEqB ((branchPairs tf tb orl).map Prod.snd) &&
            ((branchPairs tf tb orl).map Prod.fst).all (fun cs => dIsIn d cs) then
          ⟨Mode.parallel, "",
            (mergePairs (transformPairs d [] (branchPairs tf tb orl))).map (mkB (stripTime tf ga))⟩
        else
          ⟨Mode.single, "in-value-overlap-unresolvable", singleBracket tf tb ga orl⟩
      else
        ⟨Mode.single, "non-value-branch-difference", singleBracket tf tb ga orl⟩
    | _ =>
      ⟨Mode.single, "not-one-differentiating-field", singleBracket tf tb ga orl⟩

/-- Modelled from the spec: the body of build_brackets_for_find is missing
from src/xlr8/analysis/brackets.py (the file holds only its docstring and
the operator sets), so the algorithm of spec section 4.3 and the test
documentation of tests/analysis/test_brackets.py is modelled here.  The
builder first re-runs the cheap rejection checks (forbidden operator,
nested disjunction), then splits the expression, and for a non-empty
disjunction runs the overlap analysis: negation operators force single
mode with the disjunction unsplit; an overlap-prone operator on a
differing field forces single mode; differing field sets force single
mode; otherwise branches differing in a value set on exactly one field are
emitted in parallel when the sets are pairwise disjoint, transformed by
value-set subtraction when the sets overlap but the time ranges are
identical and the sets are resolvable set-membership sets, and forced to
single mode in any other shape.  Byte-identical branches with touching
time ranges are merged. -/
def build_brackets_for_find (q : Query) (tf : String) (tb : TimeRange) : BuildResult :=
  match hasForbiddenOp q with
  | some op => ⟨Mode.reject, "forbidden-operator: " ++ op, []⟩
  | none =>
    if orDepth q > 1 then ⟨Mode.reject, "nested-or-depth>1", []⟩
    else if (split_global_and q).2.isEmpty then
      ⟨Mode.parallel, "", [⟨Query.qand (stripTime tf (split_global_and q).1), tb⟩]⟩
    else
      buildOverlapAnalysis tf tb (split_global_and q).1 (split_global_and q).2

/-- Whether a time instant lies in a time range. -/
def inRange (tr : TimeRange) (t : Int) : Prop :=
  tr.lo ≤ t ∧ ∀ h, tr.hi = some h → t < h

/-- Whether a document at a time instant is matched by a bracket. -/
def satBracket (b : Bracket) (doc : Doc) (t : Int) : Prop :=
  matchesQ doc b.filter = true ∧ inRange b.tr t

/-- Two brackets are disjoint when no document satisfies both static
filters within the same time instant. -/
def BracketDisjoint (b1 b2 : Bracket) : Prop :=
  ∀ (doc : Doc) (t : Int), ¬ (satBracket b1 doc t ∧ satBracket b2 doc t)

/-- Declared-order value-set subtraction: each set keeps only the values
not already claimed by an earlier set. -/
def subtractSets (claimed : List Value) : List (List Value) → List (List Value)
  | [] => []
  | s :: rest => s.filter (fun v => decide (v ∉ claimed)) :: subtractSets (claimed ++ s) rest

-- =========================================================================
-- Example queries used for concrete instantiation
-- =========================================================================

/-- Example query: a two-branch region disjunction plus a shared time
range (spec section 8, scenario 2). -/
def exRegionOr : Query :=
  .qand [.qor [.qand [.leaf "region" "$eq" (.oval (.vstr "US"))],
               .qand [.leaf "region" "$eq" (.oval (.vstr "EU"))]],
         .leaf "ts" "$gte" (.oval (.vint 0)),
         .leaf "ts" "$lt" (.oval (.vint 100))]

/-- Example query: overlapping set-membership branches with an identical
time range (spec section 8, scenario 4). -/
def exInOverlapOr : Query :=
  .qand [.qor [.qand [.leaf "id" "$in" (.olist [.vint 1, .vint 2, .vint 3])],
               .qand [.leaf "id" "$in" (.olist [.vint 3, .vint 4, .vint 5])]],
         .leaf "ts" "$gte" (.oval (.vint 0)),
         .leaf "ts" "$lt" (.oval (.vint 100))]

/-- Example query: a disjunction with a negated branch. -/
def exNegationOr : Query :=
  .qand [.qor [.qand [.leaf "status" "$eq" (.oval (.vstr "active"))],
               .qand [.leaf "status" "$ne" (.oval (.vstr "deleted"))]],
         .leaf "ts" "$gte" (.oval (.vint 0)),
         .leaf "ts" "$lt" (.oval (.vint 100))]

/-- Example query: a forbidden geospatial operator next to a time bound. -/
def exNearQuery : Query :=
  .qand [.leaf "loc" "$near" (.oval (.vint 0)),
         .leaf "ts" "$gte" (.oval (.vint 0)),
         .leaf "ts" "$lt" (.oval (.vint 10))]

/-- Example query: overlap-prone comparison operators across branches
(spec section 8, scenario 3). -/
def exGtLtOr : Query :=
  .qand [.qor [.qand [.leaf "value" "$gt" (.oval (.vint 10))],
               .qand [.leaf "value" "$lt" (.oval (.vint 20))]],
         .leaf "ts" "$gte" (.oval (.vint 0)),
         .leaf "ts" "$lt" (.oval (.vint 100))]

/-- The full validated time bound used by the example queries. -/
def exBound : TimeRange := ⟨0, some 100, true⟩

-- =========================================================================
-- Theorems
-- =========================================================================

theorem ChainFrom.lo_lt_hi {lo hi : Int} {ps : List (Int × Int)}
    (h : ChainFrom lo hi ps) : lo < hi := by
  induction h with
  | single lo hi h => exact h
  | cons lo mid hi ps hlm _ ih => omega

theorem ChainFrom.mem_lo_le {lo hi : Int} {ps : List (Int × Int)}
    (h : ChainFrom lo hi ps) : ∀ p ∈ ps, lo ≤ p.1 := by
  induction h with
  | single lo hi h => intro p hp; rw [List.mem_singleton] at hp; simp [hp]
  | cons lo mid hi ps hlm htl ih =>
    intro p hp
    rcases List.mem_cons.mp hp with h1 | h2
    · simp [h1]
    · have := ih p h2; omega

theorem ChainFrom.mem_lt {lo hi : Int} {ps : List (Int × Int)}
    (h : ChainFrom lo hi ps) : ∀ p ∈ ps, p.1 < p.2 := by
  induction h with
  | single lo hi h => intro p hp; rw [List.mem_singleton] at hp; simp [hp, h]
  | cons lo mid hi ps hlm htl ih =>
    intro p hp
    rcases List.mem_cons.mp hp with h1 | h2
    · simp [h1, hlm]
    · exact ih p h2

theorem ChainFrom.covers {lo hi : Int} {ps : List (Int × Int)}
    (h : ChainFrom lo hi ps) :
    ∀ t : Int, (∃ p ∈ ps, p.1 ≤ t ∧ t < p.2) ↔ (lo ≤ t ∧ t < hi) := by
  induction h with
  | single lo hi h =>
    intro t
    constructor
    · rintro ⟨p, hp, h1, h2⟩
      rw [List.mem_singleton] at hp
      subst hp; exact ⟨h1, h2⟩
    · intro ht; exact ⟨(lo, hi), List.mem_singleton.mpr rfl, ht.1, ht.2⟩
  | cons lo mid hi ps hlm htl ih =>
    intro t
    have hmh : mid < hi := htl.lo_lt_hi
    constructor
    · rintro ⟨p, hp, h1, h2⟩
      rcases List.mem_cons.mp hp with hh | hh
      · subst hh; simp only at h1 h2; omega
      · have := (ih t).mp ⟨p, hh, h1, h2⟩; omega
    · intro ht
      by_cases hc : t < mid
      · exact ⟨(lo, mid), List.mem_cons_self _ _, ht.1, hc⟩
      · obtain ⟨p, hp, h1, h2⟩ := (ih t).mpr ⟨by omega, ht.2⟩
        exact ⟨p, List.mem_cons_of_mem _ hp, h1, h2⟩

theorem ChainFrom.pairwise {lo hi : Int} {ps : List (Int × Int)}
    (h : ChainFrom lo hi ps) : ps.Pairwise (fun p q => p.2 ≤ q.1) := by
  induction h with
  | single lo hi h => simp
  | cons lo mid hi ps hlm htl ih =>
    refine List.Pairwise.cons ?_ ih
    intro q hq
    exact htl.mem_lo_le q hq

theorem ChainFrom.head_fst {lo hi : Int} {ps : List (Int × Int)}
    (h : ChainFrom lo hi ps) : ps.head?.map Prod.fst = some lo := by
  cases h <;> rfl

theorem ChainFrom.contiguous {lo hi : Int} {ps : List (Int × Int)}
    (h : ChainFrom lo hi ps) : ps.Chain' (fun p q => p.2 = q.1) := by
  induction h with
  | single lo hi h => simp
  | cons lo mid hi ps hlm htl ih =>
    have hhd : ∀ q ∈ ps.head?, (fun p r => p.2 = r.1) (lo, mid) q := by
      intro q hq
      have h1 : ps.head? = some q := hq
      have h2 := htl.head_fst
      rw [h1] at h2
      exact (by simpa using h2 : q.1 = mid).symm
    exact List.chain'_cons'.mpr ⟨hhd, ih⟩

theorem chunkAux_chain : ∀ (n : Nat) (hi step cur : Int),
    (hi - cur).toNat = n → 0 < step → cur < hi →
    ChainFrom cur hi (chunkAux hi step cur) := by
  intro n
  induction n using Nat.strong_induction_on with
  | _ n ih =>
    intro hi step cur hn hstep hcur
    rw [chunkAux]
    split
    · next h =>
      exact ChainFrom.cons _ _ _ _ (by omega)
        (ih (hi - (cur + step)).toNat (by omega) hi step (cur + step) rfl hstep (by omega))
    · next h => exact ChainFrom.single _ _ hcur

theorem chunk_time_range_chain (lo hi : Int) (b : Bool) (cd : Nat)
    (hlt : lo < hi) (hcd : 0 < cd) :
    ChainFrom lo hi (chunk_time_range ⟨lo, some hi, b⟩ cd) := by
  rw [chunk_time_range]
  simp only
  rw [dif_neg (by omega)]
  rw [dif_neg (by omega)]
  have hday : (0 : Int) < secondsPerDay := by norm_num [secondsPerDay]
  have hmod1 : 0 ≤ lo % secondsPerDay := Int.emod_nonneg lo (by norm_num [secondsPerDay])
  have hmod2 : lo % secondsPerDay < secondsPerDay := Int.emod_lt_of_pos lo hday
  have hstep : secondsPerDay ≤ secondsPerDay * (cd : Int) := by
    have : (1 : Int) ≤ (cd : Int) := by exact_mod_cast hcd
    nlinarith
  have hfirst : lo < lo - lo % secondsPerDay + secondsPerDay * (cd : Int) := by omega
  split
  · next h => exact ChainFrom.single _ _ hlt
  · next h =>
    refine ChainFrom.cons _ _ _ _ hfirst ?_
    exact chunkAux_chain _ _ _ _ rfl (by omega) (by omega)

-- -------------------------------------------------------------------------
-- C2: the time-range chunker produces a partition
-- -------------------------------------------------------------------------

/-- C2: for every time range (lo, hi) with lo < hi and every positive
chunk size in days, chunk_time_range produces a finite sequence of
contiguous, non-overlapping sub-ranges in ascending order that cover
exactly the half-open interval from lo to hi, with a count that is
deterministic for identical inputs; when lo equals hi, or hi is
unresolved, it yields zero chunks rather than an error. -/
theorem chunk_time_range_partition (lo hi : Int) (b : Bool) (cd : Nat)
    (hlt : lo < hi) (hcd : 0 < cd) :
    (∀ t : Int,
      (∃ p ∈ chunk_time_range ⟨lo, some hi, b⟩ cd, p.1 ≤ t ∧ t < p.2) ↔ (lo ≤ t ∧ t < hi))
    ∧ (chunk_time_range ⟨lo, some hi, b⟩ cd).Chain' (fun p q => p.2 = q.1)
    ∧ (chunk_time_range ⟨lo, some hi, b⟩ cd).Pairwise (fun p q => p.2 ≤ q.1)
    ∧ (∀ p ∈ chunk_time_range ⟨lo, some hi, b⟩ cd, p.1 < p.2)
    ∧ (∀ tr2 : TimeRange, tr2 = ⟨lo, some hi, b⟩ →
        (chunk_time_range tr2 cd).length = (chunk_time_range ⟨lo, some hi, b⟩ cd).length)
    ∧ (∀ l : Int, ∀ b2 : Bool, chunk_time_range ⟨l, some l, b2⟩ cd = [])
    ∧ (∀ l : Int, ∀ b2 : Bool, chunk_time_range ⟨l, none, b2⟩ cd = []) := by
  have hc := chunk_time_range_chain lo hi b cd hlt hcd
  refine ⟨hc.covers, hc.contiguous, hc.pairwise, hc.mem_lt, ?_, ?_, ?_⟩
  · intro tr2 h; rw [h]
  · intro l b2; rw [chunk_time_range]; simp
  · intro l b2; rw [chunk_time_range]

/-- Witness for C2, at the concrete time range of spec section 8,
scenario 5. -/
theorem chunk_time_range_partition_witness :
    (1704457800 : Int) < 1705305600 ∧ 0 < (3 : Nat) ∧
    (∀ p ∈ chunk_time_range ⟨1704457800, some 1705305600, true⟩ 3, p.1 < p.2) :=
  ⟨by decide, by decide,
    (chunk_time_range_partition 1704457800 1705305600 true 3 (by decide) (by decide)).2.2.2.1⟩

-- -------------------------------------------------------------------------
-- C9: the conditionally-allowed tier
-- -------------------------------------------------------------------------

/-- C9: the conditionally-allowed tier consists of exactly the three
combinators (top-level disjunction, negated-list combinator, single-clause
negation), and the classifier is a pure lookup on the operator symbol
alone: its verdict is equivalent to set membership and takes no expression
or context into account. -/
theorem conditional_tier_exact :
    (∀ op : String, op ∈ CONDITIONAL ↔ (op = "$or" ∨ op = "$nor" ∨ op = "$not"))
    ∧ (∀ op : String,
        classifyOp op = some Tier.conditionallyAllowed ↔ op ∈ CONDITIONAL) := by
  have hAC : ∀ x ∈ ALWAYS_ALLOWED, ¬ x ∈ CONDITIONAL := by decide
  constructor
  · intro op
    simp [CONDITIONAL]
  · intro op
    rw [classifyOp]
    by_cases h1 : op ∈ ALWAYS_ALLOWED
    · rw [if_pos h1]
      constructor
      · intro h; exact absurd (Option.some.inj h) (by simp)
      · intro h; exact absurd h (hAC op h1)
    · rw [if_neg h1]
      by_cases h2 : op ∈ CONDITIONAL
      · rw [if_pos h2]
        exact ⟨fun _ => h2, fun _ => rfl⟩
      · rw [if_neg h2]
        constructor
        · intro h
          by_cases h3 : op ∈ NEVER_ALLOWED
          · rw [if_pos h3] at h
            exact absurd (Option.some.inj h) (by simp)
          · rw [if_neg h3] at h
            exact absurd h (by simp)
        · intro h; exact absurd h h2

-- -------------------------------------------------------------------------
-- C10: the three classification sets are pairwise disjoint
-- -------------------------------------------------------------------------

/-- C10: the three operator classification sets are pairwise disjoint, so
every recognized operator symbol belongs to exactly one tier and the
classifier is a well-defined function from operator to tier. -/
theorem tier_sets_pairwise_disjoint :
    (∀ op ∈ ALWAYS_ALLOWED, ¬ op ∈ CONDITIONAL ∧ ¬ op ∈ NEVER_ALLOWED)
    ∧ (∀ op ∈ CONDITIONAL, ¬ op ∈ ALWAYS_ALLOWED ∧ ¬ op ∈ NEVER_ALLOWED)
    ∧ (∀ op ∈ NEVER_ALLOWED, ¬ op ∈ ALWAYS_ALLOWED ∧ ¬ op ∈ CONDITIONAL)
    ∧ (∀ op : String,
        (op ∈ ALWAYS_ALLOWED ∨ op ∈ CONDITIONAL ∨ op ∈ NEVER_ALLOWED) ↔
          ∃ t, classifyOp op = some t)
    ∧ (∀ op : String, ∀ t1 t2 : Tier,
        classifyOp op = some t1 → classifyOp op = some t2 → t1 = t2) := by
  refine ⟨by decide, by decide, by decide, ?_, ?_⟩
  · intro op
    constructor
    · intro h
      rw [classifyOp]
      by_cases h1 : op ∈ ALWAYS_ALLOWED
      · rw [if_pos h1]; exact ⟨_, rfl⟩
      · rw [if_neg h1]
        by_cases h2 : op ∈ CONDITIONAL
        · rw [if_pos h2]; exact ⟨_, rfl⟩
        · rw [if_neg h2]
          by_cases h3 : op ∈ NEVER_ALLOWED
          · rw [if_pos h3]; exact ⟨_, rfl⟩
          · rcases h with h | h | h <;> first
              | exact absurd h h1
              | exact absurd h h2
              | exact absurd h h3
    · rintro ⟨t, ht⟩
      rw [classifyOp] at ht
      by_cases h1 : op ∈ ALWAYS_ALLOWED
      · exact Or.inl h1
      · rw [if_neg h1] at ht
        by_cases h2 : op ∈ CONDITIONAL
        · exact Or.inr (Or.inl h2)
        · rw [if_neg h2] at ht
          by_cases h3 : op ∈ NEVER_ALLOWED
          · exact Or.inr (Or.inr h3)
          · rw [if_neg h3] at ht
            exact absurd ht (by simp)
  · intro op t1 t2 h1 h2
    rw [h1] at h2
    exact Option.some.inj h2

/-- Witness for C10, at the equality operator. -/
theorem tier_sets_pairwise_disjoint_witness :
    "$eq" ∈ ALWAYS_ALLOWED ∧ ¬ "$eq" ∈ CONDITIONAL ∧ ¬ "$eq" ∈ NEVER_ALLOWED :=
  ⟨by decide, tier_sets_pairwise_disjoint.1 "$eq" (by decide)⟩

-- -------------------------------------------------------------------------
-- C7: the overlap-prone operator set (corrected)
-- -------------------------------------------------------------------------

/-- C7 counterexample: the overlap-prone set of the source is not exactly
the five listed kinds (array-superset, array-element, pattern, modulo,
inequality comparisons): it also holds the bitwise mask operators. -/
theorem overlap_prone_has_bitwise_member :
    "$bitsAllSet" ∈ OVERLAP_PRONE_OPERATORS ∧
    ¬ "$bitsAllSet" ∈ ["$all", "$elemMatch", "$regex", "$mod", "$gt", "$gte", "$lt", "$lte"] := by
  decide

-- -------------------------------------------------------------------------
-- Builder stepping lemmas
-- -------------------------------------------------------------------------

/-- When the cheap rejection checks pass and a disjunction is present, the
builder runs the overlap analysis. -/
theorem build_eq_analysis (q : Query) (tf : String) (tb : TimeRange)
    (ga orl : List Query)
    (hf : hasForbiddenOp q = none) (hd : ¬ orDepth q > 1)
    (hsplit : split_global_and q = (ga, orl)) (hne : orl ≠ []) :
    build_brackets_for_find q tf tb = buildOverlapAnalysis tf tb ga orl := by
  rw [build_brackets_for_find, hf, if_neg hd, hsplit]
  rw [if_neg (by simpa [List.isEmpty_iff] using hne)]

/-- The overlap analysis only chooses between parallel and single mode. -/
theorem analysis_mode_not_reject (tf : String) (tb : TimeRange) (ga orl : List Query) :
    (buildOverlapAnalysis tf tb ga orl).mode ≠ Mode.reject := by
  rw [buildOverlapAnalysis]
  repeat' split
  all_goals simp

-- -------------------------------------------------------------------------
-- C7 (continued): amended overlap-prone claim
-- -------------------------------------------------------------------------

/-- C7 amended: the operators treated as overlap-prone are exactly the
array-superset match, array-element match, pattern match, modulo match,
the inequality comparisons, and additionally the four bitwise mask
operators; when some branch uses one of them on a field that differs
between branches (and no negation forced single mode first), the builder
forces single mode. -/
theorem overlap_prone_operators_exact :
    (∀ op : String, op ∈ OVERLAP_PRONE_OPERATORS ↔
      (op = "$all" ∨ op = "$elemMatch" ∨ op = "$regex" ∨ op = "$mod" ∨
       (op = "$gt" ∨ op = "$gte" ∨ op = "$lt" ∨ op = "$lte") ∨
       (op = "$bitsAllSet" ∨ op = "$bitsAnySet" ∨ op = "$bitsAllClear" ∨ op = "$bitsAnyClear")))
    ∧ (∀ (q : Query) (tf : String) (tb : TimeRange) (ga orl : List Query),
        hasForbiddenOp q = none → ¬ orDepth q > 1 →
        split_global_and q = (ga, orl) → orl ≠ [] →
        orl.any hasNegationOp = false →
        overlapProneHit ((branchPairs tf tb orl).map Prod.fst) = true →
        (build_brackets_for_find q tf tb).mode = Mode.single) := by
  constructor
  · intro op
    simp only [OVERLAP_PRONE_OPERATORS, List.mem_cons, List.not_mem_nil, or_false]
    tauto
  · intro q tf tb ga orl hf hd hsplit hne hneg hhit
    rw [build_eq_analysis q tf tb ga orl hf hd hsplit hne]
    rw [buildOverlapAnalysis, if_neg (by simp [hneg]), if_pos hhit]

/-- Witness for the amended C7, at the disjunction of two inequality
branches of spec section 8, scenario 3. -/
theorem overlap_prone_operators_exact_witness :
    ("$gt" ∈ OVERLAP_PRONE_OPERATORS ↔
      ("$gt" = "$all" ∨ "$gt" = "$elemMatch" ∨ "$gt" = "$regex" ∨ "$gt" = "$mod" ∨
       ("$gt" = "$gt" ∨ "$gt" = "$gte" ∨ "$gt" = "$lt" ∨ "$gt" = "$lte") ∨
       ("$gt" = "$bitsAllSet" ∨ "$gt" = "$bitsAnySet" ∨ "$gt" = "$bitsAllClear" ∨
        "$gt" = "$bitsAnyClear")))
    ∧ (build_brackets_for_find exGtLtOr "ts" exBound).mode = Mode.single :=
  ⟨overlap_prone_operators_exact.1 "$gt",
   overlap_prone_operators_exact.2 exGtLtOr "ts" exBound
     [Query.leaf "ts" "$gte" (.oval (.vint 0)), Query.leaf "ts" "$lt" (.oval (.vint 100))]
     [Query.qand [Query.leaf "value" "$gt" (.oval (.vint 10))],
      Query.qand [Query.leaf "value" "$lt" (.oval (.vint 20))]]
     (by rfl) (by decide) (by rfl) (List.cons_ne_nil _ _) (by rfl) (by rfl)⟩

-- -------------------------------------------------------------------------
-- C8: negation operators force single mode with the unsplit disjunction
-- -------------------------------------------------------------------------

/-- C8: if any branch of the top-level disjunction contains a negation
operator, the builder forces single mode and emits one bracket whose
static filter is the original unsplit disjunction combined with the global
conjuncts. -/
theorem build_negation_forces_single (q : Query) (tf : String) (tb : TimeRange)
    (ga orl : List Query)
    (hf : hasForbiddenOp q = none) (hd : ¬ orDepth q > 1)
    (hsplit : split_global_and q = (ga, orl)) (hne : orl ≠ [])
    (hneg : orl.any hasNegationOp = true) :
    build_brackets_for_find q tf tb =
      ⟨Mode.single, "negation-operator-in-or-branch",
        [⟨Query.qand (stripTime tf ga ++ [Query.qor orl]), tb⟩]⟩ := by
  rw [build_eq_analysis q tf tb ga orl hf hd hsplit hne]
  rw [buildOverlapAnalysis, if_pos hneg, singleBracket]

/-- Witness for C8, at the disjunction with a not-equal branch. -/
theorem build_negation_forces_single_witness :
    hasForbiddenOp exNegationOr = none ∧
    ¬ orDepth exNegationOr > 1 ∧
    ([Query.leaf "status" "$ne" (.oval (.vstr "deleted"))].any hasNegationOp ||
      true) = true ∧
    build_brackets_for_find exNegationOr "ts" exBound =
      ⟨Mode.single, "negation-operator-in-or-branch",
        [⟨Query.qand
            (stripTime "ts"
              [Query.leaf "ts" "$gte" (.oval (.vint 0)),
               Query.leaf "ts" "$lt" (.oval (.vint 100))] ++
             [Query.qor
               [Query.qand [Query.leaf "status" "$eq" (.oval (.vstr "active"))],
                Query.qand [Query.leaf "status" "$ne" (.oval (.vstr "deleted"))]]]),
          exBound⟩]⟩ :=
  ⟨by rfl, by decide, by decide,
   build_negation_forces_single exNegationOr "ts" exBound
     [Query.leaf "ts" "$gte" (.oval (.vint 0)), Query.leaf "ts" "$lt" (.oval (.vint 100))]
     [Query.qand [Query.leaf "status" "$eq" (.oval (.vstr "active"))],
      Query.qand [Query.leaf "status" "$ne" (.oval (.vstr "deleted"))]]
     (by rfl) (by decide) (by rfl) (List.cons_ne_nil _ _) (by rfl)⟩

-- -------------------------------------------------------------------------
-- C3: forbidden operators are rejected with a fixed reason
-- -------------------------------------------------------------------------

/-- C3: an expression containing a never-allowed operator anywhere in the
tree is rejected immediately with the fixed-vocabulary reason naming the
offending operator; the reason depends only on the operator, not on its
position in the tree (the tree is universally quantified and constrained
only through its operator multiset). -/
theorem forbidden_operator_rejected (q : Query) (tf op : String)
    (hnev : op ∈ NEVER_ALLOWED) (hocc : op ∈ qops q)
    (honly : ∀ op2 ∈ qops q, op2 ∈ NEVER_ALLOWED → op2 = op) :
    validate_query_for_chunking q tf =
      ⟨false, "forbidden-operator: " ++ op, ⟨0, none, false⟩⟩ := by
  obtain ⟨x, hx⟩ : ∃ x, hasForbiddenOp q = some x := by
    rw [hasForbiddenOp]
    cases hfind : (qops q).find? (fun op2 => decide (op2 ∈ NEVER_ALLOWED)) with
    | none =>
      exfalso
      have := List.find?_eq_none.mp hfind op hocc
      simp at this
      exact this hnev
    | some x => exact ⟨x, rfl⟩
  have hpx : x ∈ NEVER_ALLOWED := by
    have h2 : ((qops q).find? (fun op2 => decide (op2 ∈ NEVER_ALLOWED))) = some x := hx
    have := List.find?_some h2
    simpa using this
  have hxmem : x ∈ qops q := by
    have h2 : ((qops q).find? (fun op2 => decide (op2 ∈ NEVER_ALLOWED))) = some x := hx
    exact List.mem_of_find?_eq_some h2
  rw [validate_query_for_chunking, hx, honly x hxmem hpx]

/-- Witness for C3, at a query holding the distance-sort operator. -/
theorem forbidden_operator_rejected_witness :
    "$near" ∈ NEVER_ALLOWED ∧ "$near" ∈ qops exNearQuery ∧
    validate_query_for_chunking exNearQuery "ts" =
      ⟨false, "forbidden-operator: " ++ "$near", ⟨0, none, false⟩⟩ :=
  ⟨by decide, by decide,
   forbidden_operator_rejected exNearQuery "ts" "$near" (by decide) (by decide) (by decide)⟩

-- -------------------------------------------------------------------------
-- C4: the validator is an ordered pipeline where the first failure wins
-- -------------------------------------------------------------------------

/-- C4: the validator evaluates its checks as an ordered pipeline and the
first failure determines the outcome: a forbidden operator wins over every
later check; nested disjunctions are rejected next; negation on the time
field next; then bound resolution rejects when no upper bound remains or
the lower bound exceeds the upper bound; success with the resolved bound
is returned only when every check passes. -/
theorem validate_pipeline_first_failure_wins (q : Query) (tf : String) :
    (∀ op, hasForbiddenOp q = some op →
      validate_query_for_chunking q tf =
        ⟨false, "forbidden-operator: " ++ op, ⟨0, none, false⟩⟩)
    ∧ (hasForbiddenOp q = none → orDepth q > 1 →
      validate_query_for_chunking q tf = ⟨false, "nested-or-depth>1", ⟨0, none, false⟩⟩)
    ∧ (hasForbiddenOp q = none → ¬ orDepth q > 1 → timeFieldNegated tf q = true →
      validate_query_for_chunking q tf = ⟨false, "time-field-negated", ⟨0, none, false⟩⟩)
    ∧ (hasForbiddenOp q = none → ¬ orDepth q > 1 → timeFieldNegated tf q = false →
      (resolveBounds (timeConds tf q)).2 = none →
      validate_query_for_chunking q tf = ⟨false, "no-time-bound", ⟨0, none, false⟩⟩)
    ∧ (∀ lo? hi, hasForbiddenOp q = none → ¬ orDepth q > 1 → timeFieldNegated tf q = false →
      resolveBounds (timeConds tf q) = (lo?, some hi) → lo?.getD 0 > hi →
      validate_query_for_chunking q tf = ⟨false, "no-time-bound", ⟨0, none, false⟩⟩)
    ∧ (∀ lo? hi, hasForbiddenOp q = none → ¬ orDepth q > 1 → timeFieldNegated tf q = false →
      resolveBounds (timeConds tf q) = (lo?, some hi) → ¬ lo?.getD 0 > hi →
      validate_query_for_chunking q tf = ⟨true, "", ⟨lo?.getD 0, some hi, lo?.isSome⟩⟩) := by
  refine ⟨?_, ?_, ?_, ?_, ?_, ?_⟩
  · intro op hop
    rw [validate_query_for_chunking, hop]
  · intro hf hd
    rw [validate_query_for_chunking, hf, if_pos hd]
  · intro hf hd hneg
    rw [validate_query_for_chunking, hf, if_neg hd, if_pos hneg]
  · intro hf hd hneg hnone
    rw [validate_query_for_chunking, hf, if_neg hd, if_neg (by simp [hneg])]
    obtain ⟨l, h⟩ : ∃ l, resolveBounds (timeConds tf q) = (l, none) := by
      refine ⟨(resolveBounds (timeConds tf q)).1, ?_⟩
      rw [← hnone]
    rw [h]
  · intro lo? hi hf hd hneg hres hgt
    rw [validate_query_for_chunking, hf, if_neg hd, if_neg (by simp [hneg]), hres]
    simp [hgt]
  · intro lo? hi hf hd hneg hres hle
    rw [validate_query_for_chunking, hf, if_neg hd, if_neg (by simp [hneg]), hres]
    simp [hle]

/-- Witness for C4, at the region disjunction example, which passes every
check and resolves the bound (0, 100). -/
theorem validate_pipeline_first_failure_wins_witness :
    hasForbiddenOp exRegionOr = none ∧
    ¬ orDepth exRegionOr > 1 ∧
    timeFieldNegated "ts" exRegionOr = false ∧
    resolveBounds (timeConds "ts" exRegionOr) = (some 0, some 100) ∧
    validate_query_for_chunking exRegionOr "ts" =
      ⟨true, "", ⟨(some (0 : Int)).getD 0, some 100, (some (0 : Int)).isSome⟩⟩ :=
  ⟨by rfl, by decide, by rfl, by rfl,
   (validate_pipeline_first_failure_wins exRegionOr "ts").2.2.2.2.2 (some 0) 100
     (by rfl) (by decide) (by rfl) (by rfl) (by decide)⟩

-- -------------------------------------------------------------------------
-- C5: the builder never independently rejects
-- -------------------------------------------------------------------------

/-- A validator success implies the two checks the builder re-runs pass. -/
theorem validate_ok_checks {q : Query} {tf : String}
    (h : (validate_query_for_chunking q tf).ok = true) :
    hasForbiddenOp q = none ∧ ¬ orDepth q > 1 := by
  cases hf : hasForbiddenOp q with
  | some op =>
    rw [validate_query_for_chunking, hf] at h
    simp at h
  | none =>
    refine ⟨rfl, ?_⟩
    intro hd
    rw [validate_query_for_chunking, hf, if_pos hd] at h
    simp at h

/-- C5: the builder never independently rejects: an expression that passed
validation is built in parallel or single mode, and reject mode occurs
only when validation already rejected the expression. -/
theorem build_never_independently_rejects (q : Query) (tf : String) (tb : TimeRange) :
    ((validate_query_for_chunking q tf).ok = true →
      (build_brackets_for_find q tf tb).mode ≠ Mode.reject)
    ∧ ((build_brackets_for_find q tf tb).mode = Mode.reject →
      (validate_query_for_chunking q tf).ok = false) := by
  constructor
  · intro hok
    obtain ⟨hf, hd⟩ := validate_ok_checks hok
    rw [build_brackets_for_find, hf, if_neg hd]
    by_cases he : (split_global_and q).2.isEmpty
    · rw [if_pos he]; simp
    · rw [if_neg he]
      exact analysis_mode_not_reject tf tb _ _
  · intro hrej
    cases hf : hasForbiddenOp q with
    | some op => rw [validate_query_for_chunking, hf]
    | none =>
      by_cases hd : orDepth q > 1
      · rw [validate_query_for_chunking, hf, if_pos hd]
      · exfalso
        rw [build_brackets_for_find, hf, if_neg hd] at hrej
        by_cases he : (split_global_and q).2.isEmpty
        · rw [if_pos he] at hrej; simp at hrej
        · rw [if_neg he] at hrej
          exact analysis_mode_not_reject tf tb _ _ hrej

/-- Witness for C5, at the region disjunction example. -/
theorem build_never_independently_rejects_witness :
    (validate_query_for_chunking exRegionOr "ts").ok = true ∧
    (build_brackets_for_find exRegionOr "ts" exBound).mode ≠ Mode.reject :=
  ⟨by rfl, (build_never_independently_rejects exRegionOr "ts" exBound).1 (by rfl)⟩

-- -------------------------------------------------------------------------
-- C6: value-set subtraction transform
-- -------------------------------------------------------------------------

/-- Characterize the single condition on the differentiating field. -/
theorem dCond_filter_eq {d : String} {cs : List Cond} {c : Cond}
    (h : dCond d cs = some c) :
    cs.filter (fun c2 => decide (c2.1 = d)) = [c] := by
  rw [dCond] at h
  split at h
  · next c2 heq =>
    cases h
    exact heq
  · next heq =>
    cases h

/-- Filtering for the differentiating field commutes with the value-set
replacement. -/
theorem filter_replaceD (d : String) (s : List Value) (cs : List Cond) :
    (replaceD d s cs).filter (fun c => decide (c.1 = d)) =
      (cs.filter (fun c => decide (c.1 = d))).map
        (fun _ => ((d, "$in", Operand.olist s) : Cond)) := by
  induction cs with
  | nil => rfl
  | cons c rest ih =>
    by_cases hc : c.1 = d
    · simp only [replaceD, List.map_cons, if_pos hc, List.filter_cons] at ih ⊢
      rw [if_pos (by simp), if_pos (by simp [hc])]
      simp only [List.map_cons]
      exact congrArg _ ih
    · simp only [replaceD, List.map_cons, if_neg hc, List.filter_cons] at ih ⊢
      rw [if_neg (by simp [hc]), if_neg (by simp [hc])]
      exact ih

/-- Replacing the value set turns the condition on the differentiating
field into the replaced set-membership condition. -/
theorem dCond_replaceD {d : String} {cs : List Cond} {c : Cond}
    (h : dCond d cs = some c) (s : List Value) :
    dCond d (replaceD d s cs) = some (d, "$in", Operand.olist s) := by
  rw [dCond, filter_replaceD, dCond_filter_eq h]
  rfl

/-- Unfold a successful extraction on the differentiating field. -/
theorem dOk_elim {d : String} {cs : List Cond} (h : dOk d cs = true) :
    ∃ c S, dCond d cs = some c ∧ condSet c = some S ∧ dSet d cs = S := by
  rw [dOk] at h
  obtain ⟨S, hS⟩ := Option.isSome_iff_exists.mp h
  obtain ⟨c, hc, hcs⟩ := Option.bind_eq_some.mp hS
  exact ⟨c, S, hc, hcs, by rw [dSet, hS]; rfl⟩

/-- After replacement the branch carries exactly the replaced set. -/
theorem dSet_replaceD {d : String} {cs : List Cond} (h : dOk d cs = true)
    (s : List Value) :
    dSet d (replaceD d s cs) = s ∧ dOk d (replaceD d s cs) = true := by
  obtain ⟨c, S, hc, _, _⟩ := dOk_elim h
  have h2 := dCond_replaceD hc s
  constructor
  · rw [dSet, h2]; rfl
  · rw [dOk, h2]; rfl

/-- The transform leaves the branch count unchanged. -/
theorem transformPairs_length (d : String) :
    ∀ (claimed : List Value) (ps : List BPair),
      (transformPairs d claimed ps).length = ps.length := by
  intro claimed ps
  induction ps generalizing claimed with
  | nil => rfl
  | cons p rest ih => rw [transformPairs, List.length_cons, List.length_cons, ih]

/-- The value sets produced by the transform are the declared-order
subtraction of the branch value sets. -/
theorem transformPairs_sets (d : String) :
    ∀ (claimed : List Value) (ps : List BPair), (∀ p ∈ ps, dOk d p.1 = true) →
    (transformPairs d claimed ps).map (fun p => dSet d p.1) =
      subtractSets claimed (ps.map (fun p => dSet d p.1)) := by
  intro claimed ps
  induction ps generalizing claimed with
  | nil => intro _; rfl
  | cons p rest ih =>
    intro hok
    rw [transformPairs, List.map_cons, List.map_cons, subtractSets]
    have h1 := (dSet_replaceD (hok p (List.mem_cons_self p rest))
      ((dSet d p.1).filter (fun v => decide (v ∉ claimed)))).1
    rw [h1, ih (claimed ++ dSet d p.1) (fun r hr => hok r (List.mem_cons_of_mem p hr))]

/-- Inserting a branch whose conditions match no kept branch appends it. -/
theorem insertMergeP_no_match (p : BPair) :
    ∀ (acc : List BPair), (∀ r ∈ acc, ¬ r.1 = p.1) →
      insertMergeP p acc = acc ++ [p] := by
  intro acc
  induction acc with
  | nil => intro _; rfl
  | cons r rs ih =>
    intro h
    rw [insertMergeP, if_neg (fun hh => h r (List.mem_cons_self r rs) hh.1),
      List.cons_append, ih (fun r2 hr2 => h r2 (List.mem_cons_of_mem r hr2))]

/-- When no two branches have byte-identical conditions the merge pass
keeps every branch. -/
theorem mergeFold_noop :
    ∀ (ps acc : List BPair),
      (∀ a ∈ acc, ∀ r ∈ ps, ¬ a.1 = r.1) →
      ps.Pairwise (fun a b => ¬ a.1 = b.1) →
      ps.foldl (fun acc2 p => insertMergeP p acc2) acc = acc ++ ps := by
  intro ps
  induction ps with
  | nil => intro acc _ _; simp
  | cons p rest ih =>
    intro acc hca hpw
    rw [List.foldl_cons,
      insertMergeP_no_match p acc (fun r hr => hca r hr p (List.mem_cons_self p rest)),
      ih (acc ++ [p]) ?hnew (List.pairwise_cons.mp hpw).2, List.append_assoc,
      List.singleton_append]
    intro a ha r hr
    rcases List.mem_append.mp ha with h | h
    · exact hca a h r (List.mem_cons_of_mem p hr)
    · rw [List.mem_singleton] at h
      subst h
      exact (List.pairwise_cons.mp hpw).1 r hr

/-- The merge pass is the identity on pairwise-distinct branches. -/
theorem mergePairs_noop {ps : List BPair}
    (hpw : ps.Pairwise (fun a b => ¬ a.1 = b.1)) : mergePairs ps = ps := by
  rw [mergePairs, mergeFold_noop ps [] (by simp) hpw, List.nil_append]

/-- C6: for a top-level disjunction whose branches carry intersecting
set-membership value sets on exactly one differentiating field and have
identical time ranges, the builder processes branches in declared order,
subtracts from each branch every value already claimed by an earlier
branch, and emits one bracket per now-disjoint transformed branch in
parallel mode; earlier branches keep contested values.  (The hypothesis
that no two transformed branches coincide keeps the byte-identical-branch
merge pass of spec section 4.3 step 4 out of the way.) -/
theorem build_in_overlap_transform (q : Query) (tf : String) (tb : TimeRange)
    (ga orl : List Query) (d : String)
    (hf : hasForbiddenOp q = none) (hd : ¬ orDepth q > 1)
    (hsplit : split_global_and q = (ga, orl)) (hne : orl ≠ [])
    (hneg : orl.any hasNegationOp = false)
    (hop : overlapProneHit ((branchPairs tf tb orl).map Prod.fst) = false)
    (hfs : fieldSetsEq ((branchPairs tf tb orl).map Prod.fst) = true)
    (hdf : diffFields ((branchPairs tf tb orl).map Prod.fst) = [d])
    (hok : ((branchPairs tf tb orl).map Prod.fst).all (fun cs => dOk d cs) = true)
    (hint : pwDisjB (((branchPairs tf tb orl).map Prod.fst).map (dSet d)) = false)
    (hrng : allEqB ((branchPairs tf tb orl).map Prod.snd) = true)
    (hin : ((branchPairs tf tb orl).map Prod.fst).all (fun cs => dIsIn d cs) = true)
    (hdist : (transformPairs d [] (branchPairs tf tb orl)).Pairwise
      (fun a b => ¬ a.1 = b.1)) :
    build_brackets_for_find q tf tb =
      ⟨Mode.parallel, "",
        (transformPairs d [] (branchPairs tf tb orl)).map (mkB (stripTime tf ga))⟩
    ∧ (build_brackets_for_find q tf tb).brackets.length = orl.length
    ∧ (transformPairs d [] (branchPairs tf tb orl)).map (fun p => dSet d p.1) =
        subtractSets [] ((branchPairs tf tb orl).map (fun p => dSet d p.1)) := by
  have hok2 : ∀ p ∈ branchPairs tf tb orl, dOk d p.1 = true := by
    intro p hp
    exact List.all_eq_true.mp hok p.1 (List.mem_map_of_mem Prod.fst hp)
  have hmain : build_brackets_for_find q tf tb =
      ⟨Mode.parallel, "",
        (transformPairs d [] (branchPairs tf tb orl)).map (mkB (stripTime tf ga))⟩ := by
    rw [build_eq_analysis q tf tb ga orl hf hd hsplit hne]
    rw [buildOverlapAnalysis, if_neg (by simp [hneg]), if_neg (by simp [hop]),
      if_neg (by simp [hfs]), hdf]
    simp only [hok, hint, hrng, hin, Bool.and_self, if_true, if_false,
      Bool.false_eq_true, Bool.true_eq_false, ite_false, ite_true]
    rw [mergePairs_noop hdist]
  refine ⟨hmain, ?_, ?_⟩
  · rw [hmain]
    simp only [List.length_map, transformPairs_length, branchPairs, List.length_map]
  · have hsets := transformPairs_sets d [] (branchPairs tf tb orl) hok2
    have hmapeq : (branchPairs tf tb orl).map (fun p => dSet d p.1) =
        ((branchPairs tf tb orl).map Prod.fst).map (dSet d) := by
      rw [List.map_map]; rfl
    rw [hsets]

/-- Witness for C6, at the overlapping set-membership disjunction of spec
section 8, scenario 4. -/
theorem build_in_overlap_transform_witness :
    pwDisjB (((branchPairs "ts" exBound
        [Query.qand [Query.leaf "id" "$in" (.olist [.vint 1, .vint 2, .vint 3])],
         Query.qand [Query.leaf "id" "$in" (.olist [.vint 3, .vint 4, .vint 5])]]).map
          Prod.fst).map (dSet "id")) = false ∧
    build_brackets_for_find exInOverlapOr "ts" exBound =
      ⟨Mode.parallel, "",
        (transformPairs "id" [] (branchPairs "ts" exBound
          [Query.qand [Query.leaf "id" "$in" (.olist [.vint 1, .vint 2, .vint 3])],
           Query.qand [Query.leaf "id" "$in" (.olist [.vint 3, .vint 4, .vint 5])]])).map
          (mkB (stripTime "ts"
            [Query.leaf "ts" "$gte" (.oval (.vint 0)),
             Query.leaf "ts" "$lt" (.oval (.vint 100))]))⟩ ∧
    (transformPairs "id" [] (branchPairs "ts" exBound
        [Query.qand [Query.leaf "id" "$in" (.olist [.vint 1, .vint 2, .vint 3])],
         Query.qand [Query.leaf "id" "$in" (.olist [.vint 3, .vint 4, .vint 5])]])).map
      (fun p => dSet "id" p.1) =
      subtractSets [] ((branchPairs "ts" exBound
        [Query.qand [Query.leaf "id" "$in" (.olist [.vint 1, .vint 2, .vint 3])],
         Query.qand [Query.leaf "id" "$in" (.olist [.vint 3, .vint 4, .vint 5])]]).map
        (fun p => dSet "id" p.1)) :=
  have h := build_in_overlap_transform exInOverlapOr "ts" exBound
    [Query.leaf "ts" "$gte" (.oval (.vint 0)), Query.leaf "ts" "$lt" (.oval (.vint 100))]
    [Query.qand [Query.leaf "id" "$in" (.olist [.vint 1, .vint 2, .vint 3])],
     Query.qand [Query.leaf "id" "$in" (.olist [.vint 3, .vint 4, .vint 5])]]
    "id" (by rfl) (by decide) (by rfl) (List.cons_ne_nil _ _) (by rfl) (by rfl) (by rfl)
    (by rfl) (by rfl) (by rfl) (by rfl) (by rfl) (by decide)
  ⟨by rfl, h.1, h.2.2⟩

-- -------------------------------------------------------------------------
-- C1: parallel-mode brackets are pairwise disjoint
-- -------------------------------------------------------------------------

/-- A document satisfying a conjunction satisfies every member. -/
theorem matchesL_mem {doc : Doc} :
    ∀ {l : List Query}, matchesL doc l = true → ∀ c ∈ l, matchesQ doc c = true := by
  intro l
  induction l with
  | nil => intro _ c hc; cases hc
  | cons q qs ih =>
    intro h c hc
    rw [matchesL] at h
    obtain ⟨h1, h2⟩ := Bool.and_eq_true_iff.mp h
    rcases List.mem_cons.mp hc with rfl | hc2
    · exact h1
    · exact ih h2 c hc2

/-- Reduction bridges for the leaf semantics. -/
theorem matchesQ_leaf (doc : Doc) (f op : String) (a : Operand) :
    matchesQ doc (.leaf f op a) = matchesCond (doc f) op a := rfl

theorem matchesCond_eq_op (v? : Option Value) (w : Value) :
    matchesCond v? "$eq" (.oval w) = decide (v? = some w) := rfl

theorem matchesCond_in_some (v : Value) (ws : List Value) :
    matchesCond (some v) "$in" (.olist ws) = decide (v ∈ ws) := rfl

theorem matchesCond_in_none (ws : List Value) :
    matchesCond none "$in" (.olist ws) = false := rfl

/-- A document matching an equality or set-membership condition assigns
the field a value drawn from the value set of the condition. -/
theorem condSet_matches {c : Cond} {S : List Value} (hs : condSet c = some S)
    {doc : Doc} (hm : matchesQ doc (toClause c) = true) :
    ∃ v, doc c.1 = some v ∧ v ∈ S := by
  obtain ⟨f, op, arg⟩ := c
  cases arg with
  | oval v =>
    simp only [condSet] at hs
    split at hs
    · next hop =>
      cases hs
      subst hop
      have hm2 : matchesCond (doc f) "$eq" (.oval v) = true := hm
      rw [matchesCond_eq_op] at hm2
      exact ⟨v, of_decide_eq_true hm2, by simp⟩
    · cases hs
  | olist vs =>
    simp only [condSet] at hs
    split at hs
    · next hop =>
      cases hs
      subst hop
      have hm2 : matchesCond (doc f) "$in" (.olist S) = true := hm
      cases hdoc : doc f with
      | none =>
        rw [hdoc, matchesCond_in_none] at hm2
        cases hm2
      | some v =>
        rw [hdoc, matchesCond_in_some] at hm2
        exact ⟨v, rfl, of_decide_eq_true hm2⟩
    · cases hs

/-- The condition found on the differentiating field belongs to the branch
and names that field. -/
theorem dCond_mem {d : String} {cs : List Cond} {c : Cond}
    (h : dCond d cs = some c) : c ∈ cs ∧ c.1 = d := by
  have hfe := dCond_filter_eq h
  have hc : c ∈ cs.filter (fun c2 => decide (c2.1 = d)) := by
    rw [hfe]; exact List.mem_singleton.mpr rfl
  obtain ⟨h1, h2⟩ := List.mem_filter.mp hc
  exact ⟨h1, of_decide_eq_true h2⟩

/-- Two branches whose value sets on the differentiating field are
disjoint yield disjoint brackets: a document satisfying both static
filters would assign the differentiating field a value in both sets. -/
theorem mkB_disjoint {gaS : List Query} {d : String} {p1 p2 : BPair}
    (h1 : dOk d p1.1 = true) (h2 : dOk d p2.1 = true)
    (hdisj : ∀ v ∈ dSet d p1.1, ¬ v ∈ dSet d p2.1) :
    BracketDisjoint (mkB gaS p1) (mkB gaS p2) := by
  rintro doc t ⟨⟨hm1, _⟩, ⟨hm2, _⟩⟩
  obtain ⟨c1, S1, hc1, hs1, hds1⟩ := dOk_elim h1
  obtain ⟨c2, S2, hc2, hs2, hds2⟩ := dOk_elim h2
  obtain ⟨hc1m, hc1d⟩ := dCond_mem hc1
  obtain ⟨hc2m, hc2d⟩ := dCond_mem hc2
  have hq1 : matchesL doc (gaS ++ p1.1.map toClause) = true := hm1
  have hq2 : matchesL doc (gaS ++ p2.1.map toClause) = true := hm2
  have hm1c : matchesQ doc (toClause c1) = true :=
    matchesL_mem hq1 _ (List.mem_append_right _ (List.mem_map_of_mem toClause hc1m))
  have hm2c : matchesQ doc (toClause c2) = true :=
    matchesL_mem hq2 _ (List.mem_append_right _ (List.mem_map_of_mem toClause hc2m))
  obtain ⟨v1, hv1, hv1S⟩ := condSet_matches hs1 hm1c
  obtain ⟨v2, hv2, hv2S⟩ := condSet_matches hs2 hm2c
  rw [hc1d] at hv1
  rw [hc2d] at hv2
  rw [hv1] at hv2
  cases hv2
  exact hdisj v1 (hds1 ▸ hv1S) (hds2 ▸ hv2S)

/-- The boolean pairwise-disjointness check implies pairwise
disjointness. -/
theorem pwDisjB_pairwise : ∀ {l : List (List Value)}, pwDisjB l = true →
    l.Pairwise (fun s t => ∀ v ∈ s, ¬ v ∈ t) := by
  intro l
  induction l with
  | nil => intro _; exact List.Pairwise.nil
  | cons s rest ih =>
    intro h
    rw [pwDisjB] at h
    obtain ⟨h1, h2⟩ := Bool.and_eq_true_iff.mp h
    refine List.Pairwise.cons ?_ (ih h2)
    intro t ht v hv
    have := List.all_eq_true.mp h1 t ht
    have := List.all_eq_true.mp this v hv
    exact of_decide_eq_true this

/-- Values kept by the transform were not claimed by earlier branches. -/
theorem transformPairs_not_claimed (d : String) :
    ∀ (claimed : List Value) (ps : List BPair), (∀ p ∈ ps, dOk d p.1 = true) →
    ∀ p2 ∈ transformPairs d claimed ps, ∀ v ∈ dSet d p2.1, ¬ v ∈ claimed := by
  intro claimed ps
  induction ps generalizing claimed with
  | nil => intro _ p2 hp2; cases hp2
  | cons p rest ih =>
    intro hok p2 hp2 v hv
    rw [transformPairs] at hp2
    rcases List.mem_cons.mp hp2 with rfl | htail
    · have hset := (dSet_replaceD (hok p (List.mem_cons_self p rest))
        ((dSet d p.1).filter (fun v2 => decide (¬ v2 ∈ claimed)))).1
      rw [hset] at hv
      exact of_decide_eq_true (List.mem_filter.mp hv).2
    · intro hvc
      exact ih (claimed ++ dSet d p.1)
        (fun r hr => hok r (List.mem_cons_of_mem p hr)) p2 htail v hv
        (List.mem_append_left _ hvc)

/-- Every branch produced by the transform still carries a resolvable
value set on the differentiating field. -/
theorem transformPairs_dOk (d : String) :
    ∀ (claimed : List Value) (ps : List BPair), (∀ p ∈ ps, dOk d p.1 = true) →
    ∀ p2 ∈ transformPairs d claimed ps, dOk d p2.1 = true := by
  intro claimed ps
  induction ps generalizing claimed with
  | nil => intro _ p2 hp2; cases hp2
  | cons p rest ih =>
    intro hok p2 hp2
    rw [transformPairs] at hp2
    rcases List.mem_cons.mp hp2 with rfl | htail
    · exact (dSet_replaceD (hok p (List.mem_cons_self p rest)) _).2
    · exact ih (claimed ++ dSet d p.1)
        (fun r hr => hok r (List.mem_cons_of_mem p hr)) p2 htail

/-- The transform makes the value sets pairwise disjoint: a later branch
loses every value an earlier branch kept. -/
theorem transformPairs_pairwise (d : String) :
    ∀ (claimed : List Value) (ps : List BPair), (∀ p ∈ ps, dOk d p.1 = true) →
    (transformPairs d claimed ps).Pairwise
      (fun a b => ∀ v ∈ dSet d a.1, ¬ v ∈ dSet d b.1) := by
  intro claimed ps
  induction ps generalizing claimed with
  | nil => intro _; exact List.Pairwise.nil
  | cons p rest ih =>
    intro hok
    rw [transformPairs]
    refine List.Pairwise.cons ?_ (ih (claimed ++ dSet d p.1)
      (fun r hr => hok r (List.mem_cons_of_mem p hr)))
    intro b hb v hv hvb
    have hset := (dSet_replaceD (hok p (List.mem_cons_self p rest))
      ((dSet d p.1).filter (fun v2 => decide (¬ v2 ∈ claimed)))).1
    rw [hset] at hv
    have hvp : v ∈ dSet d p.1 := (List.mem_filter.mp hv).1
    exact transformPairs_not_claimed d (claimed ++ dSet d p.1) rest
      (fun r hr => hok r (List.mem_cons_of_mem p hr)) b hb v hvb
      (List.mem_append_right _ hvp)

/-- Inserting a branch into the merge accumulator keeps the condition
lists a sublist of the accumulator conditions plus the new branch. -/
theorem insertMergeP_map_fst (p : BPair) :
    ∀ (acc : List BPair),
      ((insertMergeP p acc).map Prod.fst).Sublist (acc.map Prod.fst ++ [p.1]) := by
  intro acc
  induction acc with
  | nil => simp [insertMergeP]
  | cons q qs ih =>
    rw [insertMergeP]
    by_cases hc : q.1 = p.1 ∧ rangesTouch q.2 p.2 = true
    · rw [if_pos hc]
      simp only [List.map_cons, List.cons_append]
      exact List.Sublist.cons₂ q.1 (List.sublist_append_left (qs.map Prod.fst) [p.1])
    · rw [if_neg hc]
      simp only [List.map_cons, List.cons_append]
      exact List.Sublist.cons₂ q.1 ih

/-- The merge fold only drops or reorders-nothing: its condition lists
form a sublist of the accumulator conditions plus the branch conditions. -/
theorem mergeFold_map_fst :
    ∀ (ps acc : List BPair),
      ((ps.foldl (fun acc2 p => insertMergeP p acc2) acc).map Prod.fst).Sublist
        (acc.map Prod.fst ++ ps.map Prod.fst) := by
  intro ps
  induction ps with
  | nil => intro acc; simp
  | cons p rest ih =>
    intro acc
    rw [List.foldl_cons]
    refine (ih (insertMergeP p acc)).trans ?_
    have h1 := (insertMergeP_map_fst p acc).append_right (rest.map Prod.fst)
    rw [List.append_assoc, List.singleton_append] at h1
    rw [List.map_cons]
    exact h1

/-- The merged branch conditions are a sublist of the original branch
conditions. -/
theorem mergePairs_map_fst (ps : List BPair) :
    ((mergePairs ps).map Prod.fst).Sublist (ps.map Prod.fst) := by
  have h := mergeFold_map_fst ps []
  simpa [mergePairs] using h

/-- Branches whose value sets on the differentiating field are pairwise
disjoint yield pairwise disjoint brackets, and the merge pass preserves
this. -/
theorem brackets_pairwise_disjoint_of (gaS : List Query) (d : String)
    (ps : List BPair)
    (hok : ∀ cs ∈ ps.map Prod.fst, dOk d cs = true)
    (hpw : (ps.map Prod.fst).Pairwise
      (fun cs1 cs2 => ∀ v ∈ dSet d cs1, ¬ v ∈ dSet d cs2)) :
    ((mergePairs ps).map (mkB gaS)).Pairwise BracketDisjoint := by
  rw [List.pairwise_map]
  have h2 : ((mergePairs ps).map Prod.fst).Pairwise
      (fun cs1 cs2 => ∀ v ∈ dSet d cs1, ¬ v ∈ dSet d cs2) :=
    List.Pairwise.sublist (mergePairs_map_fst ps) hpw
  rw [List.pairwise_map] at h2
  refine List.Pairwise.imp_of_mem ?_ h2
  intro a b ha hb hdisj
  have hoka : dOk d a.1 = true :=
    hok a.1 ((mergePairs_map_fst ps).subset (List.mem_map_of_mem Prod.fst ha))
  have hokb : dOk d b.1 = true :=
    hok b.1 ((mergePairs_map_fst ps).subset (List.mem_map_of_mem Prod.fst hb))
  exact mkB_disjoint hoka hokb hdisj

/-- The outcomes of the overlap analysis: single mode, or parallel with
the disjoint branches as they stand, or parallel with the transformed
branches. -/
theorem analysis_cases (tf : String) (tb : TimeRange) (ga orl : List Query) :
    (buildOverlapAnalysis tf tb ga orl).mode = Mode.single
    ∨ (∃ d, diffFields ((branchPairs tf tb orl).map Prod.fst) = [d]
        ∧ ((branchPairs tf tb orl).map Prod.fst).all (fun cs => dOk d cs) = true
        ∧ pwDisjB (((branchPairs tf tb orl).map Prod.fst).map (dSet d)) = true
        ∧ buildOverlapAnalysis tf tb ga orl =
            ⟨Mode.parallel, "",
              (mergePairs (branchPairs tf tb orl)).map (mkB (stripTime tf ga))⟩)
    ∨ (∃ d, diffFields ((branchPairs tf tb orl).map Prod.fst) = [d]
        ∧ ((branchPairs tf tb orl).map Prod.fst).all (fun cs => dOk d cs) = true
        ∧ buildOverlapAnalysis tf tb ga orl =
            ⟨Mode.parallel, "",
              (mergePairs (transformPairs d [] (branchPairs tf tb orl))).map
                (mkB (stripTime tf ga))⟩) := by
  rw [buildOverlapAnalysis]
  repeat' split
  all_goals
    first
      | (left; rfl)
      | (refine Or.inr (Or.inl ⟨?_, ?_, ?_, ?_, rfl⟩) <;> assumption)
      | (refine Or.inr (Or.inr ⟨_, ?_, ?_, rfl⟩) <;> assumption)

/-- C1: for every expression accepted by the validator and built in
parallel mode, the emitted brackets are pairwise disjoint: no document can
satisfy the static filters of two distinct brackets simultaneously within
the same time instant. -/
theorem parallel_brackets_pairwise_disjoint (q : Query) (tf : String) (tb : TimeRange)
    (hv : (validate_query_for_chunking q tf).ok = true)
    (hm : (build_brackets_for_find q tf tb).mode = Mode.parallel) :
    (build_brackets_for_find q tf tb).brackets.Pairwise BracketDisjoint := by
  obtain ⟨hf, hd⟩ := validate_ok_checks hv
  by_cases he : (split_global_and q).2.isEmpty
  · rw [build_brackets_for_find, hf, if_neg hd, if_pos he]
    simp
  · have hne : (split_global_and q).2 ≠ [] := by
      intro h
      rw [h] at he
      exact he rfl
    have hba := build_eq_analysis q tf tb (split_global_and q).1 (split_global_and q).2
      hf hd rfl hne
    rw [hba] at hm ⊢
    rcases analysis_cases tf tb (split_global_and q).1 (split_global_and q).2 with
      hs | ⟨d, hdf, hok, hdisj, heq⟩ | ⟨d, hdf, hok, heq⟩
    · rw [hs] at hm
      cases hm
    · rw [heq]
      refine brackets_pairwise_disjoint_of _ d _ (List.all_eq_true.mp hok) ?_
      have h2 := pwDisjB_pairwise hdisj
      rw [List.pairwise_map] at h2
      exact h2
    · rw [heq]
      refine brackets_pairwise_disjoint_of _ d _ ?_ ?_
      · intro cs hcs
        obtain ⟨p2, hp2, hpeq⟩ := List.mem_map.mp hcs
        rw [← hpeq]
        exact transformPairs_dOk d [] _
          (fun p hp => List.all_eq_true.mp hok p.1 (List.mem_map_of_mem Prod.fst hp))
          p2 hp2
      · rw [List.pairwise_map]
        exact transformPairs_pairwise d [] _
          (fun p hp => List.all_eq_true.mp hok p.1 (List.mem_map_of_mem Prod.fst hp))

/-- Witness for C1, at the two-region disjunction of spec section 8,
scenario 2. -/
theorem parallel_brackets_pairwise_disjoint_witness :
    (validate_query_for_chunking exRegionOr "ts").ok = true ∧
    (build_brackets_for_find exRegionOr "ts" exBound).mode = Mode.parallel ∧
    (build_brackets_for_find exRegionOr "ts" exBound).brackets.Pairwise BracketDisjoint :=
  ⟨by rfl, by rfl,
   parallel_brackets_pairwise_disjoint exRegionOr "ts" exBound (by rfl) (by rfl)⟩
